import Mathlib

/-!
Shallow embedding of `src/skimage/filters/window.py`.

The module defines four functions: `_rotational_mapping`, `_ndrotational_mapping`,
`get_window2` and `get_windownd`.  They rely on three collaborators that are not
part of `src/`:

* `scipy.signal.get_window` — modelled as an explicit generator argument
  `g : ℚ → Except WindowError (List ℝ)` (the capability interface of spec §6/§9:
  `WindowProfileSource { generate(spec, length) -> sequence<float> }`, with the
  window specification already applied);
* `skimage.transform.warp` — modelled from the spec (§4.3, §6, §9);
* `skimage._shared.utils.safe_as_int` — modelled from the spec (§6, §7).

Machine floating-point values are modelled as real numbers and numpy arrays as
lists (of lists).  A raised Python exception is modelled as `Except.error`.
-/

namespace SkWindow

/-- Error taxonomy of spec §7.  The source raises plain Python/numpy exceptions;
these labels name the failure points of the embedded code using the spec's
abstract taxonomy.  `axisError` stands for the numpy `AxisError` raised by
`swapaxes` on a 1-D array (a failure mode outside the spec's taxonomy). -/
inductive WindowError
  | invalidSize
  | unknownWindow
  | dimensionMismatch
  | axisError
deriving DecidableEq

/-- Modelled from the spec: the integer-coercion helper `safe_as_int`
(imported from `.._shared.utils`, not under `src/`): "converts a size-like
value to an exact integer, failing if the value has a non-zero fractional
part" (spec §6); the failure is the spec's `InvalidSizeError` (§7). -/
def safe_as_int (q : ℚ) : Except WindowError ℤ :=
  if q.den = 1 then .ok q.num else .error .invalidSize

/-- Embedding of `_rotational_mapping(output_coords, window_size)` from the source:

    window_size = safe_as_int(window_size)
    center = (window_size / 2) - 0.5
    rr = np.sqrt(((output_coords[:, 0] - center) ** 2) +
                 ((output_coords[:, 1] - center) ** 2))
    cc = np.zeros_like(rr)
    coords = np.column_stack((cc, rr))
    return coords

`output_coords` is an `(M, 2)` array of `(col, row)` pairs, modelled as a list
of pairs; `np.column_stack((cc, rr))` pairs the zero column with the radius
column. -/
noncomputable def rotational_mapping (outputCoords : List (ℝ × ℝ))
    (windowSize : ℚ) : Except WindowError (List (ℝ × ℝ)) :=
  (safe_as_int windowSize).map fun (n : ℤ) =>
    let center : ℝ := (n : ℝ) / 2 - 0.5
    let rr := outputCoords.map fun p =>
      Real.sqrt ((p.1 - center) ^ 2 + (p.2 - center) ^ 2)
    let cc := rr.map fun _ => (0 : ℝ)
    cc.zip rr

/-- Embedding of `_ndrotational_mapping(output_coords, window_size)` from the source:

    window_size = safe_as_int(window_size)
    center = (window_size / 2) - 0.5
    coords = np.zeros_like(output_coords)
    coords[:, 0] = np.sqrt(((output_coords - center) ** 2).sum(axis=1))
    return coords

`np.zeros_like` keeps the shape of `output_coords`, and the assignment writes
the per-row Euclidean radius into column 0.  (On an `(M, 0)` input numpy would
raise an `IndexError` on the column assignment; the `[] => []` branch below is
never exercised by the theorems, which require non-empty rows, nor by
`get_windownd`, which always passes rows of length `ndim ≥ 2`.) -/
noncomputable def ndrotational_mapping (outputCoords : List (List ℝ))
    (windowSize : ℚ) : Except WindowError (List (List ℝ)) :=
  (safe_as_int windowSize).map fun (n : ℤ) =>
    let center : ℝ := (n : ℝ) / 2 - 0.5
    List.zipWith (fun rad zrow =>
        match zrow with
        | [] => []
        | _ :: rest => rad :: rest)
      (outputCoords.map fun r =>
        Real.sqrt ((r.map fun x => (x - center) ^ 2).sum))
      (outputCoords.map fun r => r.map fun _ => (0 : ℝ))

/-- Reduction of `Except.map` on a success value. -/
lemma except_map_ok {α β : Type} (f : α → β) (x : α) :
    Except.map f (.ok x : Except WindowError α) = .ok (f x) := rfl

/-- Reduction of `Except.map` on an error value. -/
lemma except_map_error {α β : Type} (f : α → β) (e : WindowError) :
    Except.map f (.error e : Except WindowError α) = .error e := rfl

/-- Casting the numerator of an integral rational agrees with casting the
rational itself. -/
lemma num_cast_eq (q : ℚ) (h : q.den = 1) : ((q.num : ℝ)) = (q : ℝ) := by
  rw [Rat.cast_def, h]
  simp

/-- C2: for every `(M, 2)` array of `(col, row)` output coordinates and every
window size that is an exact integer, `_rotational_mapping` returns the `(M, 2)`
array whose `i`-th row is `(0, radius_i)` with
`radius_i = sqrt((col_i - center)^2 + (row_i - center)^2)` and
`center = size/2 - 0.5`; in particular with `window_size = 4` the point
`(1.5, 1.5)` is mapped to radius `0`. -/
theorem rotational_mapping_rows (outputCoords : List (ℝ × ℝ)) (windowSize : ℚ)
    (h : windowSize.den = 1) :
    rotational_mapping outputCoords windowSize =
      .ok (outputCoords.map fun p =>
        ((0 : ℝ),
          Real.sqrt ((p.1 - ((windowSize : ℝ) / 2 - 0.5)) ^ 2 +
            (p.2 - ((windowSize : ℝ) / 2 - 0.5)) ^ 2))) ∧
    rotational_mapping [((1.5 : ℝ), (1.5 : ℝ))] 4 = .ok [((0 : ℝ), (0 : ℝ))] := by
  constructor
  · simp only [rotational_mapping, safe_as_int, h, eq_self_iff_true, if_true,
      except_map_ok, List.map_map, Function.comp, List.zip_map',
      num_cast_eq windowSize h]
  · have h4 : ((4 : ℚ)).den = 1 := rfl
    simp only [rotational_mapping, safe_as_int, h4, eq_self_iff_true, if_true,
      except_map_ok, List.map_map, Function.comp, List.zip_map',
      List.map_cons, List.map_nil]
    norm_num

/-- C2 witness: the theorem applied at a concrete coordinate list and size. -/
theorem rotational_mapping_rows_witness :
    ((2 : ℚ)).den = 1 ∧
    (rotational_mapping [((0 : ℝ), (1 : ℝ))] 2 =
      .ok ([((0 : ℝ), (1 : ℝ))].map fun p =>
        ((0 : ℝ),
          Real.sqrt ((p.1 - (((2 : ℚ) : ℝ) / 2 - 0.5)) ^ 2 +
            (p.2 - (((2 : ℚ) : ℝ) / 2 - 0.5)) ^ 2))) ∧
      rotational_mapping [((1.5 : ℝ), (1.5 : ℝ))] 4 = .ok [((0 : ℝ), (0 : ℝ))]) :=
  ⟨rfl, rotational_mapping_rows [((0 : ℝ), (1 : ℝ))] 2 rfl⟩

/-- C3: for every `(M, N)` array of output coordinates (rows non-empty, as
numpy raises on zero-width arrays) and every window size that is an exact
integer, `_ndrotational_mapping` returns the `(M, N)` array whose rows have
component 0 equal to the Euclidean distance to the point with every axis
position `size/2 - 0.5`, and components `1 .. N-1` all zero. -/
theorem ndrotational_mapping_rows (rows : List (List ℝ)) (windowSize : ℚ)
    (h : windowSize.den = 1) (hne : ∀ r ∈ rows, r ≠ []) :
    ndrotational_mapping rows windowSize =
      .ok (rows.map fun r =>
        Real.sqrt ((r.map fun x => (x - ((windowSize : ℝ) / 2 - 0.5)) ^ 2).sum)
          :: List.replicate (r.length - 1) (0 : ℝ)) := by
  simp only [ndrotational_mapping, safe_as_int, h, eq_self_iff_true, if_true,
    except_map_ok, num_cast_eq windowSize h, List.zipWith_map, List.zipWith_same]
  refine congrArg Except.ok (List.map_congr_left fun r hr => ?_)
  cases r with
  | nil => exact absurd rfl (hne [] hr)
  | cons a as => simp

/-- C3 witness: the theorem applied at a concrete coordinate array and size. -/
theorem ndrotational_mapping_rows_witness :
    ((4 : ℚ)).den = 1 ∧ (∀ r ∈ [[(0 : ℝ), 0, 0]], r ≠ []) ∧
    ndrotational_mapping [[(0 : ℝ), 0, 0]] 4 =
      .ok ([[(0 : ℝ), 0, 0]].map fun r =>
        Real.sqrt ((r.map fun x => (x - (((4 : ℚ) : ℝ) / 2 - 0.5)) ^ 2).sum)
          :: List.replicate (r.length - 1) (0 : ℝ)) :=
  ⟨rfl, by simp,
    ndrotational_mapping_rows [[(0 : ℝ), 0, 0]] 4 rfl (by simp)⟩

/-- Embedding of `_ndrotational_mapping` as it behaves on an integer-dtype input array:
`np.zeros_like(output_coords)` preserves the integer dtype, so the assignment
`coords[:, 0] = np.sqrt(...)` C-casts each float radius into an integer cell,
truncating toward zero; the radius is non-negative, so the stored value is the
floor of the true radius.  Same source lines as `ndrotational_mapping`, with
the dtype-dependent store made explicit. -/
noncomputable def ndrotational_mapping_int (outputCoords : List (List ℤ))
    (windowSize : ℚ) : Except WindowError (List (List ℤ)) :=
  (safe_as_int windowSize).map fun (n : ℤ) =>
    let center : ℝ := (n : ℝ) / 2 - 0.5
    List.zipWith (fun rad zrow =>
        match zrow with
        | [] => []
        | _ :: rest => rad :: rest)
      (outputCoords.map fun r =>
        ⌊Real.sqrt ((r.map fun (x : ℤ) => ((x : ℝ) - center) ^ 2).sum)⌋)
      (outputCoords.map fun r => r.map fun _ => (0 : ℤ))

/-- C10: the N-D mapper's output keeps the element dtype of its input: on an
integer-dtype array each stored radius is the true Euclidean radius truncated
to an integer (its floor, the radius being non-negative), while the exact
fractional radius is produced for floating-point input. -/
theorem ndrotational_mapping_dtype (rows : List (List ℤ)) (windowSize : ℚ)
    (h : windowSize.den = 1) (hne : ∀ r ∈ rows, r ≠ []) :
    ndrotational_mapping_int rows windowSize =
      .ok (rows.map fun r =>
        ⌊Real.sqrt ((r.map fun (x : ℤ) =>
            ((x : ℝ) - ((windowSize : ℝ) / 2 - 0.5)) ^ 2).sum)⌋
          :: List.replicate (r.length - 1) (0 : ℤ)) ∧
    ndrotational_mapping (rows.map fun r => r.map fun (x : ℤ) => (x : ℝ))
        windowSize =
      .ok (rows.map fun r =>
        Real.sqrt ((r.map fun (x : ℤ) =>
            ((x : ℝ) - ((windowSize : ℝ) / 2 - 0.5)) ^ 2).sum)
          :: List.replicate (r.length - 1) (0 : ℝ)) := by
  constructor
  · simp only [ndrotational_mapping_int, safe_as_int, h, eq_self_iff_true,
      if_true, except_map_ok, num_cast_eq windowSize h, List.zipWith_map,
      List.zipWith_same]
    refine congrArg Except.ok (List.map_congr_left fun r hr => ?_)
    cases r with
    | nil => exact absurd rfl (hne [] hr)
    | cons a as => simp
  · have hne2 : ∀ r ∈ rows.map fun r => r.map fun (x : ℤ) => (x : ℝ), r ≠ [] := by
      intro r hr
      rcases List.mem_map.mp hr with ⟨s, hs, rfl⟩
      simpa using hne s hs
    rw [ndrotational_mapping_rows _ windowSize h hne2]
    refine congrArg Except.ok ?_
    simp [List.map_map, Function.comp_def]

/-- C10 witness: the theorem applied at the one-point integer array `[[0]]`
with size 2; there the true radius is `sqrt((0 - 0.5)^2) = 0.5`, stored as `0`
in the integer output and as `0.5` in the floating-point output. -/
theorem ndrotational_mapping_dtype_witness :
    ((2 : ℚ)).den = 1 ∧ (∀ r ∈ [[(0 : ℤ)]], r ≠ []) ∧
    (ndrotational_mapping_int [[(0 : ℤ)]] 2 =
        .ok ([[(0 : ℤ)]].map fun r =>
          ⌊Real.sqrt ((r.map fun (x : ℤ) =>
              ((x : ℝ) - (((2 : ℚ) : ℝ) / 2 - 0.5)) ^ 2).sum)⌋
            :: List.replicate (r.length - 1) (0 : ℤ)) ∧
      ndrotational_mapping ([[(0 : ℤ)]].map fun r => r.map fun (x : ℤ) => (x : ℝ))
          2 =
        .ok ([[(0 : ℤ)]].map fun r =>
          Real.sqrt ((r.map fun (x : ℤ) =>
              ((x : ℝ) - (((2 : ℚ) : ℝ) / 2 - 0.5)) ^ 2).sum)
            :: List.replicate (r.length - 1) (0 : ℝ))) :=
  ⟨rfl, by simp, ndrotational_mapping_dtype [[(0 : ℤ)]] 2 rfl (by simp)⟩

/-- Generic `m × k` matrix built from an entry function (row-major, matching
numpy's C order); used to express image grids and reshapes. -/
def matrixOf {α : Type} (m k : ℕ) (f : ℕ → ℕ → α) : List (List α) :=
  (List.range m).map fun r => (List.range k).map fun c => f r c

/-- Row-major flat list of the output-pixel coordinates of a `rows × cols`
image, each presented to the inverse map as a `(col, row)` pair: flat index
`i` holds the pixel at row `i / cols`, column `i % cols`. -/
def gridCoords (rows cols : ℕ) : List (ℝ × ℝ) :=
  (List.range (rows * cols)).map fun i =>
    (((i % cols : ℕ) : ℝ), ((i / cols : ℕ) : ℝ))

/-- Nearest-neighbour source index for coordinate `x` in a sequence of length
`len`, clamped into `[0, len - 1]` (`Int.toNat` clamps the lower end). -/
noncomputable def clampNearest (x : ℝ) (len : ℕ) : ℕ :=
  (min ⌊x + 0.5⌋ ((len : ℤ) - 1)).toNat

/-- Sampling the single-column input image `w[:, np.newaxis]` at a mapped
`(col, row)` coordinate: the nearest column index clamps to the only column
`0`, so the sample is the profile value at the nearest clamped row. -/
noncomputable def sampleColumn (img : List ℝ) (p : ℝ × ℝ) : ℝ :=
  img.getD (clampNearest p.2 img.length) 0

/-- Modelled from the spec: `warp(image, inverse_map, map_args, output_shape)`
(`skimage.transform.warp`, not under `src/`; spec §6: "for each output pixel,
calls `inverse_map` to find the source coordinate and interpolates"), for the
single-column input image used by `get_window2`: build the output pixel grid,
call `inverse_map` once on the full `(M, 2)` coordinate array (as the warp
routine does for a callable map), sample the input image at each mapped
coordinate with nearest-neighbour interpolation clamped to the image (§4.3/§9
leave the interpolation scheme to the implementation; the spec's boxcar
round-trip property presumes samples stay inside the profile), and reshape
the flat result to `output_shape` in C order.  A failure of the inverse map
propagates. -/
noncomputable def warpColumn (img : List ℝ)
    (mapFn : List (ℝ × ℝ) → Except WindowError (List (ℝ × ℝ)))
    (rows cols : ℕ) : Except WindowError (List (List ℝ)) :=
  (mapFn (gridCoords rows cols)).map fun mapped =>
    let vals := mapped.map (sampleColumn img)
    matrixOf rows cols fun r c => vals.getD (r * cols + c) 0

/-- Length of `np.arange(size)`: `⌈size⌉`, clamped below at `0`. -/
def arangeLen (q : ℚ) : ℕ := (⌈q⌉).toNat

/-- Embedding of `get_window2(window, size)` from the source:

    w = get_window(window, size, fftbins=False)
    w = w[safe_as_int(np.floor(w.shape[0]/2)):]
    w = w[:, np.newaxis]
    window2d = warp(w, _rotational_mapping,
                    map_args={'window_size': size}, output_shape=(size, size))
    return window2d

`g` stands for the external `scipy.signal.get_window` with the window
specification already applied (spec §6/§9 capability interface).
`safe_as_int(np.floor(len/2))` always succeeds and gives the integer
`len / 2`, so the slice keeps the outer half of the profile.  The
`output_shape=(size, size)` is modelled as `arangeLen size` squared: it is
only reached when `size` is integral (otherwise `_rotational_mapping` raises
inside `warp`), and there `⌈size⌉ = size`. -/
noncomputable def get_window2 (g : ℚ → Except WindowError (List ℝ))
    (size : ℚ) : Except WindowError (List (List ℝ)) :=
  (g size).bind fun w =>
    let half := w.drop (w.length / 2)
    warpColumn half (fun coords => rotational_mapping coords size)
      (arangeLen size) (arangeLen size)

/-- The `k` base-`s` digits of `c`, most significant digit first. -/
def digitsMSB (s k c : ℕ) : List ℕ :=
  (List.range k).map fun i => c / s ^ (k - 1 - i) % s

/-- The integer lattice of the cube `[0, s)^k`, one point per row, in
row-major / last-axis-fastest order.  This is what the source's pipeline

    L = [np.arange(size) for i in range(ndim)]
    outcoords = np.hstack((np.meshgrid(*L))).swapaxes(0, 1).reshape(ndim, -1).T

produces for `k ≥ 2`: with default `indexing='xy'`, `meshgrid` returns
`G_0, …, G_{k-1}` of shape `(s, …, s)` with `G_0[a] = a_1`, `G_1[a] = a_0`
and `G_m[a] = a_m` for `m ≥ 2`; `hstack` concatenates them along axis 1;
`swapaxes(0, 1)` brings that axis first, so the element at index
`(m·s + t, a_0, a_2, …, a_{k-1})` is `G_m` evaluated at
`(a_0, t, a_2, …, a_{k-1})`; `reshape(ndim, -1)` in C order therefore makes
row `m`, column `t·s^(k-1) + a_0·s^(k-2) + a_2·s^(k-3) + ⋯ + a_{k-1}` hold
that element, and `.T` turns columns into rows: row `c` of the result lists
`(t, a_0, a_2, …, a_{k-1})`, the base-`s` digits of `c`, most significant
first (for `k = 2, s = 2` the rows are `(0,0), (0,1), (1,0), (1,1)`). -/
def lattice (s k : ℕ) : List (List ℕ) :=
  (List.range (s ^ k)).map (digitsMSB s k)

/-- The lattice points as a floating-point coordinate array
(`outcoords.astype(np.double)` in the source). -/
def outcoordsOf (s k : ℕ) : List (List ℝ) :=
  (lattice s k).map fun dr => dr.map fun (d : ℕ) => (d : ℝ)

/-- Embedding of `get_windownd(window, size, ndim)` from the source:

    w = get_window(window, size, fftbins=False)
    w = w[safe_as_int(np.floor(w.shape[0]/2)):]
    L = [np.arange(size) for i in range(ndim)]
    outcoords = np.hstack((np.meshgrid(*L))).swapaxes(0, 1).reshape(ndim, -1).T
    outcoords = outcoords.astype(np.double)
    coords = _ndrotational_mapping(outcoords, size)
    all_coords = np.dstack((coords, outcoords))
    for i in range(ndim-1):
        w = np.expand_dims(w, axis=1)
    return all_coords

The sliced profile `w` is only re-shaped by the trailing loop and never used
in the returned value.  For `ndim < 1` the list `L` is empty and
`np.hstack(())` raises a `ValueError` (the spec's `DimensionMismatchError`,
§7); for `ndim = 1` the `hstack` result is 1-D and `swapaxes(0, 1)` raises a
numpy `AxisError`.  `np.dstack((coords, outcoords))` pairs each radius row
with its (float-cast) coordinate row elementwise. -/
noncomputable def get_windownd (g : ℚ → Except WindowError (List ℝ))
    (size : ℚ) (ndim : ℤ) : Except WindowError (List (List (ℝ × ℝ))) :=
  (g size).bind fun w =>
    let _half := w.drop (w.length / 2)
    if ndim < 1 then .error .dimensionMismatch
    else if ndim = 1 then .error .axisError
    else
      (ndrotational_mapping (outcoordsOf (arangeLen size) ndim.toNat) size).map
        fun coords =>
          List.zipWith (fun cr oc => cr.zip oc) coords
            (outcoordsOf (arangeLen size) ndim.toNat)

/-- Reduction of `Except.bind` on a success value. -/
lemma except_bind_ok {α β : Type} (f : α → Except WindowError β) (x : α) :
    (Except.ok x : Except WindowError α).bind f = f x := rfl

/-- Reduction of `Except.bind` on an error value. -/
lemma except_bind_error {α β : Type} (f : α → Except WindowError β)
    (e : WindowError) :
    (Except.error e : Except WindowError α).bind f = .error e := rfl

/-- Coercing a natural-number size to a rational keeps it an exact integer. -/
lemma safe_as_int_natCast (n : ℕ) : safe_as_int (n : ℚ) = .ok (n : ℤ) := by
  simp [safe_as_int]

/-- Applying `np.arange` to a natural-number size yields that many entries. -/
lemma arangeLen_natCast (n : ℕ) : arangeLen (n : ℚ) = n := by
  simp [arangeLen]

/-- General form of the 2-D mapper's output, phrased from the coerced integer
size. -/
lemma rotational_mapping_ok (outputCoords : List (ℝ × ℝ)) (q : ℚ) (n : ℤ)
    (hq : safe_as_int q = .ok n) :
    rotational_mapping outputCoords q =
      .ok (outputCoords.map fun p =>
        ((0 : ℝ),
          Real.sqrt ((p.1 - ((n : ℝ) / 2 - 0.5)) ^ 2 +
            (p.2 - ((n : ℝ) / 2 - 0.5)) ^ 2))) := by
  simp only [rotational_mapping, hq, except_map_ok, List.map_map,
    Function.comp, List.zip_map']

/-- General form of the N-D mapper's output, phrased from the coerced integer
size. -/
lemma ndrotational_mapping_ok (rows : List (List ℝ)) (q : ℚ) (n : ℤ)
    (hq : safe_as_int q = .ok n) (hne : ∀ r ∈ rows, r ≠ []) :
    ndrotational_mapping rows q =
      .ok (rows.map fun r =>
        Real.sqrt ((r.map fun x => (x - ((n : ℝ) / 2 - 0.5)) ^ 2).sum)
          :: List.replicate (r.length - 1) (0 : ℝ)) := by
  simp only [ndrotational_mapping, hq, except_map_ok, List.zipWith_map,
    List.zipWith_same]
  refine congrArg Except.ok (List.map_congr_left fun r hr => ?_)
  cases r with
  | nil => exact absurd rfl (hne [] hr)
  | cons a as => simp

/-- Pointwise congruence for `matrixOf`. -/
lemma matrixOf_congr {α : Type} {m k : ℕ} {f g : ℕ → ℕ → α}
    (h : ∀ r < m, ∀ c < k, f r c = g r c) :
    matrixOf m k f = matrixOf m k g := by
  refine List.map_congr_left fun r hr => List.map_congr_left fun c hc => ?_
  exact h r (List.mem_range.mp hr) c (List.mem_range.mp hc)

/-- Entry extraction for `matrixOf`. -/
lemma matrixOf_entry {α : Type} (m k : ℕ) (f : ℕ → ℕ → α) (d : α) (r c : ℕ)
    (hr : r < m) (hc : c < k) :
    ((matrixOf m k f).getD r []).getD c d = f r c := by
  unfold matrixOf
  have h1 : r < (List.map (fun r => List.map (fun c => f r c) (List.range k))
      (List.range m)).length := by simpa using hr
  rw [List.getD_eq_getElem _ _ h1, List.getElem_map, List.getElem_range]
  have h2 : c < (List.map (fun c => f r c) (List.range k)).length := by
    simpa using hc
  rw [List.getD_eq_getElem _ _ h2, List.getElem_map, List.getElem_range]

/-- Row-major flat indices stay inside the grid. -/
lemma flat_index_lt {r c rows cols : ℕ} (hr : r < rows) (hc : c < cols) :
    r * cols + c < rows * cols := by
  calc r * cols + c < r * cols + cols := by omega
  _ = (r + 1) * cols := by ring
  _ ≤ rows * cols := Nat.mul_le_mul_right cols hr

/-- Extracting through two stacked `List.map`s at a valid index. -/
lemma getD_map_map {α β γ : Type} (f : β → γ) (g : α → β) (l : List α)
    (d : γ) (i : ℕ) (h : i < l.length) :
    ((l.map g).map f).getD i d = f (g l[i]) := by
  rw [List.getD_eq_getElem _ _ (by simpa using h), List.getElem_map,
    List.getElem_map]

/-- The grid coordinate at flat index `r * cols + c` is the pixel `(col = c,
row = r)`. -/
lemma gridCoords_elem (rows cols r c : ℕ) (_hr : r < rows) (hc : c < cols)
    (h : r * cols + c < (gridCoords rows cols).length) :
    (gridCoords rows cols)[r * cols + c] = ((c : ℝ), (r : ℝ)) := by
  simp only [gridCoords, List.getElem_map, List.getElem_range]
  have hmod : (r * cols + c) % cols = c := by
    rw [Nat.mul_comm r cols, Nat.mul_add_mod]
    exact Nat.mod_eq_of_lt hc
  have hdiv : (r * cols + c) / cols = r := by
    rw [Nat.mul_comm r cols, Nat.mul_add_div (by omega : 0 < cols),
      Nat.div_eq_of_lt hc]
    omega
  rw [hmod, hdiv]

/-- Evaluation of the warp step when the size coerces to the integer `n`:
output pixel `(r, c)` samples the profile at radius
`sqrt((c - center)^2 + (r - center)^2)`. -/
lemma warpColumn_rot (img : List ℝ) (q : ℚ) (n : ℤ)
    (hq : safe_as_int q = .ok n) (rows cols : ℕ) :
    warpColumn img (fun coords => rotational_mapping coords q) rows cols =
      .ok (matrixOf rows cols fun r c =>
        sampleColumn img
          ((0 : ℝ),
            Real.sqrt (((c : ℝ) - ((n : ℝ) / 2 - 0.5)) ^ 2 +
              ((r : ℝ) - ((n : ℝ) / 2 - 0.5)) ^ 2))) := by
  rw [warpColumn, rotational_mapping_ok _ q n hq, except_map_ok]
  refine congrArg Except.ok (matrixOf_congr fun r hr c hc => ?_)
  have hl : r * cols + c < (gridCoords rows cols).length := by
    simpa [gridCoords] using flat_index_lt hr hc
  rw [getD_map_map _ _ _ _ _ hl, gridCoords_elem rows cols r c hr hc hl]

/-- Evaluation of `get_window2` on a natural-number size once the generator
has produced a profile `w`. -/
lemma get_window2_ok (g : ℚ → Except WindowError (List ℝ)) (size : ℕ)
    (w : List ℝ) (hw : g (size : ℚ) = .ok w) :
    get_window2 g (size : ℚ) =
      .ok (matrixOf size size fun r c =>
        sampleColumn (w.drop (w.length / 2))
          ((0 : ℝ),
            Real.sqrt (((c : ℝ) - ((size : ℝ) / 2 - 0.5)) ^ 2 +
              ((r : ℝ) - ((size : ℝ) / 2 - 0.5)) ^ 2))) := by
  rw [get_window2, hw, except_bind_ok]
  rw [arangeLen_natCast]
  rw [warpColumn_rot _ _ (size : ℤ) (safe_as_int_natCast size)]
  norm_num

/-- The nearest clamped index is a valid index of a non-empty profile. -/
lemma clampNearest_lt (x : ℝ) (len : ℕ) (hlen : 0 < len) :
    clampNearest x len < len := by
  unfold clampNearest
  have h1 : min ⌊x + 0.5⌋ ((len : ℤ) - 1) ≤ (len : ℤ) - 1 := min_le_right _ _
  have h2 := Int.toNat_le_toNat h1
  have h3 : ((len : ℤ) - 1).toNat = len - 1 := by omega
  omega

/-- Sampling an all-ones profile always yields `1`. -/
lemma sampleColumn_ones (h : ℕ) (hh : 0 < h) (p : ℝ × ℝ) :
    sampleColumn (List.replicate h (1 : ℝ)) p = 1 := by
  unfold sampleColumn
  rw [List.length_replicate]
  rw [List.getD_eq_getElem _ _ (by simpa using clampNearest_lt p.2 h hh)]
  simp

/-- Modelled from the spec: the external window generator applied to the
`"boxcar"` specification — the boxcar window is "the trivial window, constant
value 1 everywhere" (glossary), returned as a 1-D array of the requested
length (§6); the external generator rejects a length that is not a
non-negative exact integer (its `InvalidSizeError`-class guard, §7/§8). -/
def boxcarGen (q : ℚ) : Except WindowError (List ℝ) :=
  if 0 ≤ q ∧ q.den = 1 then .ok (List.replicate q.num.toNat 1)
  else .error .invalidSize

/-- The boxcar 2-D window of any positive size is the all-ones square. -/
lemma get_window2_boxcar (n : ℕ) (hn : 0 < n) :
    get_window2 boxcarGen (n : ℚ) =
      .ok (List.replicate n (List.replicate n (1 : ℝ))) := by
  have hg : boxcarGen (n : ℚ) = .ok (List.replicate n (1 : ℝ)) := by
    simp [boxcarGen]
  rw [get_window2_ok boxcarGen n _ hg]
  rw [List.length_replicate, List.drop_replicate]
  have hpos : 0 < n - n / 2 := by omega
  have hones : matrixOf n n (fun r c =>
      sampleColumn (List.replicate (n - n / 2) (1 : ℝ))
        ((0 : ℝ),
          Real.sqrt (((c : ℝ) - ((n : ℝ) / 2 - 0.5)) ^ 2 +
            ((r : ℝ) - ((n : ℝ) / 2 - 0.5)) ^ 2))) =
      matrixOf n n (fun _ _ => (1 : ℝ)) :=
    matrixOf_congr fun r _ c _ => sampleColumn_ones _ hpos _
  rw [hones]
  unfold matrixOf
  simp [List.map_const']

/-- C1: `get_window2("boxcar", 5)` returns a `5 × 5` array in which every
entry equals `1`. -/
theorem get_window2_boxcar5 :
    get_window2 boxcarGen 5 =
      .ok (List.replicate 5 (List.replicate 5 (1 : ℝ))) := by
  have h := get_window2_boxcar 5 (by norm_num)
  norm_num at h
  exact h

/-- C6: for every integer size, the array returned by the 2-D window builder
has shape `(size, size)`. -/
theorem get_window2_shape (g : ℚ → Except WindowError (List ℝ)) (size : ℕ)
    (W : List (List ℝ)) (hW : get_window2 g (size : ℚ) = .ok W) :
    W.length = size ∧ ∀ row ∈ W, row.length = size := by
  cases hg : g (size : ℚ) with
  | error e =>
    rw [get_window2, hg, except_bind_error] at hW
    exact absurd hW (by simp)
  | ok w =>
    rw [get_window2_ok g size w hg] at hW
    injection hW with h
    subst h
    constructor
    · simp [matrixOf]
    · intro row hrow
      simp only [matrixOf, List.mem_map] at hrow
      rcases hrow with ⟨r, _, rfl⟩
      simp

/-- C6 witness: the theorem applied to the boxcar window of size 3. -/
theorem get_window2_shape_witness :
    get_window2 boxcarGen ((3 : ℕ) : ℚ) =
      .ok (List.replicate 3 (List.replicate 3 (1 : ℝ))) ∧
    (List.replicate 3 (List.replicate 3 (1 : ℝ))).length = 3 ∧
    ∀ row ∈ List.replicate 3 (List.replicate 3 (1 : ℝ)), row.length = 3 :=
  ⟨get_window2_boxcar 3 (by norm_num),
    get_window2_shape boxcarGen 3 _ (get_window2_boxcar 3 (by norm_num))⟩

/-- C5: for every integer size, the `size × size` window returned by the 2-D
builder satisfies `window[i, j] = window[size-1-i, size-1-j]` (here exactly,
stronger than the claimed interpolation tolerance) and equals its own
transpose (`window[i, j] = window[j, i]`). -/
theorem get_window2_symmetric (g : ℚ → Except WindowError (List ℝ)) (size : ℕ)
    (W : List (List ℝ)) (hW : get_window2 g (size : ℚ) = .ok W)
    (i j : ℕ) (hi : i < size) (hj : j < size) :
    (W.getD i []).getD j 0 = (W.getD (size - 1 - i) []).getD (size - 1 - j) 0 ∧
    (W.getD i []).getD j 0 = (W.getD j []).getD i 0 := by
  cases hg : g (size : ℚ) with
  | error e =>
    rw [get_window2, hg, except_bind_error] at hW
    exact absurd hW (by simp)
  | ok w =>
    rw [get_window2_ok g size w hg] at hW
    injection hW with h
    subst h
    have hsq : ∀ a : ℕ, a < size →
        (((size - 1 - a : ℕ) : ℝ) - ((size : ℝ) / 2 - 0.5)) ^ 2 =
          ((a : ℝ) - ((size : ℝ) / 2 - 0.5)) ^ 2 := by
      intro a ha
      have h1 : size - 1 - a = size - (a + 1) := by omega
      rw [h1, Nat.cast_sub (by omega : a + 1 ≤ size)]
      push_cast
      ring
    constructor
    · rw [matrixOf_entry _ _ _ _ i j hi hj,
        matrixOf_entry _ _ _ _ (size - 1 - i) (size - 1 - j) (by omega)
          (by omega),
        hsq j hj, hsq i hi]
    · rw [matrixOf_entry _ _ _ _ i j hi hj,
        matrixOf_entry _ _ _ _ j i hj hi]
      exact congrArg
        (fun t => sampleColumn (w.drop (w.length / 2)) ((0 : ℝ), Real.sqrt t))
        (add_comm _ _)

/-- C5 witness: the theorem applied to the boxcar window of size 2 at the
index pair `(0, 1)`. -/
theorem get_window2_symmetric_witness :
    get_window2 boxcarGen ((2 : ℕ) : ℚ) =
      .ok (List.replicate 2 (List.replicate 2 (1 : ℝ))) ∧
    (((List.replicate 2 (List.replicate 2 (1 : ℝ))).getD 0 []).getD 1 0 =
      ((List.replicate 2 (List.replicate 2 (1 : ℝ))).getD (2 - 1 - 0) []).getD
        (2 - 1 - 1) 0 ∧
    ((List.replicate 2 (List.replicate 2 (1 : ℝ))).getD 0 []).getD 1 0 =
      ((List.replicate 2 (List.replicate 2 (1 : ℝ))).getD 1 []).getD 0 0) :=
  ⟨get_window2_boxcar 2 (by norm_num),
    get_window2_symmetric boxcarGen 2 _ (get_window2_boxcar 2 (by norm_num))
      0 1 (by norm_num) (by norm_num)⟩

/-- C7: calling either builder with a size whose fractional part is non-zero
(such as `3.5`) fails with the spec's `InvalidSizeError` instead of returning
a result, whether the external generator rejects the fractional length itself
(as the real one does) or hypothetically accepts it, in which case the
builders' own integer coercion raises; `1 < ndim` keeps the N-D builder on
the size-failure path rather than its separate dimensionality failures. -/
theorem builders_reject_fractional_size (g : ℚ → Except WindowError (List ℝ))
    (size : ℚ) (ndim : ℤ) (hs : size.den ≠ 1)
    (hg : g size = .error .invalidSize ∨ ∃ w, g size = .ok w)
    (hn : 1 < ndim) :
    get_window2 g size = .error .invalidSize ∧
    get_windownd g size ndim = .error .invalidSize := by
  have hsafe : safe_as_int size = .error .invalidSize := by
    simp [safe_as_int, hs]
  have h1 : ¬ndim < 1 := by omega
  have h2 : ¬ndim = 1 := by omega
  rcases hg with hg | ⟨w, hg⟩
  · constructor
    · rw [get_window2, hg, except_bind_error]
    · rw [get_windownd, hg, except_bind_error]
  · constructor
    · rw [get_window2, hg, except_bind_ok]
      show warpColumn (w.drop (w.length / 2))
        (fun coords => rotational_mapping coords size)
        (arangeLen size) (arangeLen size) = .error .invalidSize
      rw [warpColumn]
      have hrot : rotational_mapping
          (gridCoords (arangeLen size) (arangeLen size)) size =
          .error .invalidSize := by
        rw [rotational_mapping, hsafe, except_map_error]
      rw [hrot, except_map_error]
    · simp only [get_windownd, hg, except_bind_ok, ndrotational_mapping,
        hsafe, except_map_error, h1, h2, if_false, ite_false]

/-- The rational `7/2` (= 3.5) is not an exact integer. -/
lemma seven_half_den_ne_one : ((7 / 2 : ℚ)).den ≠ 1 := by
  intro h
  have h2 : (((7 / 2 : ℚ)).num : ℚ) = (7 / 2 : ℚ) := (Rat.den_eq_one_iff _).mp h
  have h3 : (2 : ℚ) * (((7 / 2 : ℚ)).num : ℚ) = 7 := by rw [h2]; ring
  have h4 : (2 : ℤ) * ((7 / 2 : ℚ)).num = 7 := by exact_mod_cast h3
  omega

/-- C7 witness: the theorem applied with `size = 7/2` (= 3.5), `ndim = 2`,
and a generator that accepts everything. -/
theorem builders_reject_fractional_size_witness :
    ((7 / 2 : ℚ)).den ≠ 1 ∧
    (get_window2 (fun _ => .ok [(1 : ℝ)]) (7 / 2) = .error .invalidSize ∧
      get_windownd (fun _ => .ok [(1 : ℝ)]) (7 / 2) 2 = .error .invalidSize) :=
  ⟨seven_half_den_ne_one,
    builders_reject_fractional_size (fun _ => .ok [(1 : ℝ)]) (7 / 2) 2
      seven_half_den_ne_one (Or.inr ⟨[(1 : ℝ)], rfl⟩) (by norm_num)⟩

/-- C8: calling the N-D builder with `ndim < 1` fails with the spec's
`DimensionMismatchError` (the `np.hstack` of an empty list of grids raises)
instead of returning a result, provided the external generator accepted the
window specification (otherwise that failure surfaces first). -/
theorem get_windownd_ndim_lt_one (g : ℚ → Except WindowError (List ℝ))
    (size : ℚ) (ndim : ℤ) (hn : ndim < 1) (hg : ∃ w, g size = .ok w) :
    get_windownd g size ndim = .error .dimensionMismatch := by
  obtain ⟨w, hg⟩ := hg
  simp [get_windownd, hg, except_bind_ok, hn]

/-- C8 witness: the theorem applied with `ndim = 0`. -/
theorem get_windownd_ndim_lt_one_witness :
    (0 : ℤ) < 1 ∧
    get_windownd (fun _ => .ok [(1 : ℝ)]) 4 0 = .error .dimensionMismatch :=
  ⟨by norm_num,
    get_windownd_ndim_lt_one (fun _ => .ok [(1 : ℝ)]) 4 0 (by norm_num)
      ⟨[(1 : ℝ)], rfl⟩⟩

/-- C9: the N-D builder's result never depends on the fetched 1-D window
profile: for any two window specifications both accepted by the external
generator, the returned coordinate/radius data is identical (the sliced
profile `w` is dead in the return value). -/
theorem get_windownd_ignores_profile (g₁ g₂ : ℚ → Except WindowError (List ℝ))
    (size : ℚ) (ndim : ℤ)
    (h₁ : ∃ w, g₁ size = .ok w) (h₂ : ∃ w, g₂ size = .ok w) :
    get_windownd g₁ size ndim = get_windownd g₂ size ndim := by
  obtain ⟨w₁, h₁⟩ := h₁
  obtain ⟨w₂, h₂⟩ := h₂
  rw [get_windownd, get_windownd, h₁, h₂, except_bind_ok, except_bind_ok]

/-- C9 witness: two generators with different profiles give the same N-D
builder output at size 4, `ndim = 3`. -/
theorem get_windownd_ignores_profile_witness :
    (∃ w, (fun _ : ℚ => Except.ok (ε := WindowError) [(1 : ℝ)]) 4 = .ok w) ∧
    (∃ w, (fun _ : ℚ => Except.ok (ε := WindowError) [(0 : ℝ), 2]) 4 = .ok w) ∧
    get_windownd (fun _ => .ok [(1 : ℝ)]) 4 3 =
      get_windownd (fun _ => .ok [(0 : ℝ), 2]) 4 3 :=
  ⟨⟨[(1 : ℝ)], rfl⟩, ⟨[(0 : ℝ), 2], rfl⟩,
    get_windownd_ignores_profile _ _ 4 3 ⟨[(1 : ℝ)], rfl⟩
      ⟨[(0 : ℝ), 2], rfl⟩⟩

/-- Each lattice row is a `k`-digit expansion. -/
lemma lattice_row_length (s k : ℕ) {dr : List ℕ} (h : dr ∈ lattice s k) :
    dr.length = k := by
  rcases List.mem_map.mp h with ⟨c, _, rfl⟩
  simp [digitsMSB]

/-- Members of the lattice enumeration have `k` coordinates, all below `s`. -/
lemma lattice_mem (s k : ℕ) (hs : 0 < s) {dr : List ℕ} (h : dr ∈ lattice s k) :
    dr.length = k ∧ ∀ x ∈ dr, x < s := by
  refine ⟨lattice_row_length s k h, fun x hx => ?_⟩
  rcases List.mem_map.mp h with ⟨c, _, rfl⟩
  simp only [digitsMSB, List.mem_map] at hx
  rcases hx with ⟨i, _, rfl⟩
  exact Nat.mod_lt _ hs

/-- Lattice point number `0` is the origin. -/
lemma digitsMSB_zero (s k : ℕ) : digitsMSB s k 0 = List.replicate k 0 := by
  simp [digitsMSB, Nat.zero_div, Nat.zero_mod]

/-- Head of a radius/coordinate row produced by the N-D builder. -/
lemma pairRow_head (rad : ℝ) (m : ℕ) (oc : List ℝ) (hoc : oc ≠ []) :
    (((rad :: List.replicate m (0 : ℝ)).zip oc).headD (0, 0)).1 = rad := by
  cases oc with
  | nil => exact absurd rfl hoc
  | cons b bs => simp

/-- Coordinate components of a radius/coordinate row. -/
lemma pairRow_snd (rad : ℝ) (oc : List ℝ) (hoc : oc ≠ []) :
    ((rad :: List.replicate (oc.length - 1) (0 : ℝ)).zip oc).map Prod.snd =
      oc := by
  refine List.map_snd_zip _ _ ?_
  cases oc with
  | nil => exact absurd rfl hoc
  | cons b bs => simp

/-- Evaluation of `get_windownd` for a natural-number size and dimensionality
`k ≥ 2` once the generator has produced a profile. -/
lemma get_windownd_ok (g : ℚ → Except WindowError (List ℝ)) (size k : ℕ)
    (w : List ℝ) (hw : g (size : ℚ) = .ok w) (hk : 2 ≤ k) :
    get_windownd g (size : ℚ) (k : ℤ) =
      .ok ((outcoordsOf size k).map fun oc =>
        (Real.sqrt ((oc.map fun x => (x - ((size : ℝ) / 2 - 0.5)) ^ 2).sum)
          :: List.replicate (oc.length - 1) (0 : ℝ)).zip oc) := by
  have h1 : ¬((k : ℤ) < 1) := by omega
  have h2 : ¬((k : ℤ) = 1) := by omega
  have htn : ((k : ℤ)).toNat = k := Int.toNat_ofNat k
  have hne : ∀ r ∈ outcoordsOf size k, r ≠ [] := by
    intro r hr
    simp only [outcoordsOf, List.mem_map] at hr
    rcases hr with ⟨dr, hdr, rfl⟩
    intro hc
    have hdr0 : dr = [] := by simpa using hc
    have := lattice_row_length size k hdr
    rw [hdr0] at this
    simp at this
    omega
  rw [get_windownd, hw, except_bind_ok]
  show (if (k : ℤ) < 1 then (Except.error WindowError.dimensionMismatch :
      Except WindowError (List (List (ℝ × ℝ))))
    else if (k : ℤ) = 1 then Except.error WindowError.axisError
    else
      (ndrotational_mapping
          (outcoordsOf (arangeLen (size : ℚ)) ((k : ℤ)).toNat)
          (size : ℚ)).map
        fun coords =>
          List.zipWith (fun cr oc => cr.zip oc) coords
            (outcoordsOf (arangeLen (size : ℚ)) ((k : ℤ)).toNat)) = _
  rw [if_neg h1, if_neg h2, htn, arangeLen_natCast,
    ndrotational_mapping_ok _ _ (size : ℤ) (safe_as_int_natCast size) hne,
    except_map_ok, List.zipWith_map_left, List.zipWith_same]
  refine congrArg Except.ok (List.map_congr_left fun oc hoc => ?_)
  push_cast
  rfl

/-- Every coordinate below 4 contributes at most `2.25` to the squared radius
about the center `1.5` of a size-4 axis. -/
lemma sum_sq_le_of_lt_four (dr : List ℕ) (hlt : ∀ x ∈ dr, x < 4) :
    ((dr.map fun (d : ℕ) => ((d : ℝ) - ((4 : ℝ) / 2 - 0.5)) ^ 2).sum) ≤
      2.25 * (dr.length : ℝ) := by
  induction dr with
  | nil => simp
  | cons a as ih =>
    simp only [List.map_cons, List.sum_cons, List.length_cons]
    have ha : a < 4 := hlt a (by simp)
    have h1 : ((a : ℝ) - ((4 : ℝ) / 2 - 0.5)) ^ 2 ≤ 2.25 := by
      interval_cases a <;> norm_num
    have h2 := ih fun x hx => hlt x (by simp [hx])
    push_cast
    linarith

/-- C4: `get_windownd` at size 4 with `ndim = 3` (for any accepted window
specification, `"hann"` included — the result never reads the profile)
returns exactly `4^3 = 64` coordinate/radius rows; a row for the lattice
point `(0, 0, 0)` exists, and its radius is greater than or equal to the
radius of every returned row. -/
theorem get_windownd_hann_4_3 (g : ℚ → Except WindowError (List ℝ))
    (hg : ∃ w, g 4 = .ok w) :
    ∃ l, get_windownd g 4 3 = .ok l ∧ l.length = 64 ∧
      (∃ p ∈ l, p.map Prod.snd = [(0 : ℝ), 0, 0]) ∧
      ∀ p ∈ l, p.map Prod.snd = [(0 : ℝ), 0, 0] →
        ∀ q ∈ l, (q.headD (0, 0)).1 ≤ (p.headD (0, 0)).1 := by
  obtain ⟨w, hw⟩ := hg
  have hw' : g ((4 : ℕ) : ℚ) = .ok w := by
    norm_num
    exact hw
  have heval := get_windownd_ok g 4 3 w hw' (by norm_num)
  rw [show (((4 : ℕ) : ℚ)) = (4 : ℚ) from by norm_num,
    show (((3 : ℕ) : ℤ)) = (3 : ℤ) from by norm_num,
    show (((4 : ℕ) : ℝ)) = (4 : ℝ) from by norm_num] at heval
  refine ⟨_, heval, ?_, ?_, ?_⟩
  · simp [outcoordsOf, lattice]
  · -- the origin row
    have h0 : ([0, 0, 0] : List ℕ) ∈ lattice 4 3 := by
      have : (0 : ℕ) ∈ List.range (4 ^ 3) := by simp
      have hd : digitsMSB 4 3 0 = [0, 0, 0] := by
        rw [digitsMSB_zero]
        rfl
      exact hd ▸ List.mem_map_of_mem (digitsMSB 4 3) this
    have hoc : ([(0 : ℝ), 0, 0] : List ℝ) ∈ outcoordsOf 4 3 := by
      simp only [outcoordsOf, List.mem_map]
      exact ⟨[0, 0, 0], h0, by norm_num⟩
    refine ⟨_, List.mem_map_of_mem _ hoc, ?_⟩
    exact pairRow_snd _ _ (by simp)
  · intro p hp hpc q hq
    rcases List.mem_map.mp hp with ⟨oc, hoc, rfl⟩
    rcases List.mem_map.mp hq with ⟨oc', hoc', rfl⟩
    simp only [outcoordsOf, List.mem_map] at hoc hoc'
    rcases hoc with ⟨dr, hdr, rfl⟩
    rcases hoc' with ⟨dr', hdr', rfl⟩
    have hdrm := lattice_mem 4 3 (by norm_num) hdr
    have hdrm' := lattice_mem 4 3 (by norm_num) hdr'
    have hlen : (dr.map fun (d : ℕ) => (d : ℝ)).length = 3 := by
      simpa using hdrm.1
    have hlen' : (dr'.map fun (d : ℕ) => (d : ℝ)).length = 3 := by
      simpa using hdrm'.1
    have hne : (dr.map fun (d : ℕ) => (d : ℝ)) ≠ [] := by
      intro hc; rw [hc] at hlen; simp at hlen
    have hne' : (dr'.map fun (d : ℕ) => (d : ℝ)) ≠ [] := by
      intro hc; rw [hc] at hlen'; simp at hlen'
    rw [pairRow_head _ _ _ hne, pairRow_head _ _ _ hne']
    rw [pairRow_snd _ _ hne] at hpc
    rw [hpc]
    refine Real.sqrt_le_sqrt ?_
    have hbound := sum_sq_le_of_lt_four dr' hdrm'.2
    rw [List.map_map]
    have hval : ((([(0 : ℝ), 0, 0]).map fun x =>
        (x - ((4 : ℝ) / 2 - 0.5)) ^ 2).sum) = 6.75 := by norm_num
    rw [hval]
    have hlen3 : (2.25 : ℝ) * (dr'.length : ℝ) = 6.75 := by
      rw [hdrm'.1]; norm_num
    exact le_trans hbound (le_of_eq hlen3)

/-- C4 witness: the theorem applied with a concrete accepting generator. -/
theorem get_windownd_hann_4_3_witness :
    (∃ w, (fun _ : ℚ => Except.ok (ε := WindowError) [(1 : ℝ)]) 4 = .ok w) ∧
    ∃ l, get_windownd (fun _ => .ok [(1 : ℝ)]) 4 3 = .ok l ∧ l.length = 64 ∧
      (∃ p ∈ l, p.map Prod.snd = [(0 : ℝ), 0, 0]) ∧
      ∀ p ∈ l, p.map Prod.snd = [(0 : ℝ), 0, 0] →
        ∀ q ∈ l, (q.headD (0, 0)).1 ≤ (p.headD (0, 0)).1 :=
  ⟨⟨[(1 : ℝ)], rfl⟩,
    get_windownd_hann_4_3 (fun _ => .ok [(1 : ℝ)]) ⟨[(1 : ℝ)], rfl⟩⟩

end SkWindow
